import Mathlib

/-!
Verification development for the implicit linear-update subsystem of the
aither CFD solver (src/linearSolver.cpp): LU-SGS and DP-LUR relaxation of
the block-sparse system A·Δu = b.

The subsystem's external collaborators (procBlock, input, matMultiArray3d,
physics models, the ghost-cell exchange) are consumed through a fixed
interface; they are embedded here as structures whose fields are arbitrary
functions with the interface's signatures.  The C++ double arithmetic is
embedded as exact rational arithmetic: every claim settled here concerns
control flow, traversal order, accumulation structure and frame conditions,
none of which depend on rounding.
-/

namespace Aither

/-- An L-vector of solution variables (the C++ `varArray`), one rational per
equation component.  Addition, subtraction, scalar multiplication and the
componentwise product are the pointwise (Pi) operations. -/
abbrev varArray (n : ℕ) := Fin n → ℚ

/-- `varArray::Sum()` — the sum of all components. -/
def vSum {n : ℕ} (v : varArray n) : ℚ := ∑ i, v i

/-- `.Max()` of a component-wise spectral-radius vector: the largest
component (clamped below by 0; spectral radii are non-negative). -/
def vMax {n : ℕ} (v : varArray n) : ℚ := (List.ofFn v).foldr max 0

/-- A cell index (ii, jj, kk).  Interior cells of a block of extent
(NI, NJ, NK) have indices in [0, NI) × [0, NJ) × [0, NK); the G ghost
layers occupy the surrounding indices. -/
abbrev Cell := ℤ × ℤ × ℤ

/-- The input variables consumed by the subsystem (methods of the C++
`input` class used in linearSolver.cpp). -/
structure input where
  NumEquations : ℕ
  NumSpecies : ℕ
  Theta : ℚ
  DualTimeCFL : ℚ
  MatrixRelaxation : ℚ
  MatrixRequiresInitialization : Bool

/-- The per-block update container `blkMultiArray3d<varArray>`: its extent
(the block's cell counts plus ghost layers) and the stored L-vectors.  The
`data` field is total over ℤ³; only indices inside the extent are ever
read or written by the subsystem. -/
structure blkMultiArray3d (n : ℕ) where
  NumI : ℕ
  NumJ : ℕ
  NumK : ℕ
  NumGhosts : ℕ
  data : ℤ → ℤ → ℤ → varArray n

/-- Read access `x(ii, jj, kk)`. -/
def blkMultiArray3d.Get {n : ℕ} (x : blkMultiArray3d n) (ii jj kk : ℤ) : varArray n :=
  x.data ii jj kk

/-- `x.GetCopy(ii, jj, kk)` — same value as read access (a copy in C++). -/
def blkMultiArray3d.GetCopy {n : ℕ} (x : blkMultiArray3d n) (ii jj kk : ℤ) : varArray n :=
  x.data ii jj kk

/-- `x.InsertBlock(ii, jj, kk, v)` — store v at one cell. -/
def blkMultiArray3d.InsertBlock {n : ℕ} (x : blkMultiArray3d n) (ii jj kk : ℤ)
    (v : varArray n) : blkMultiArray3d n :=
  { x with data := fun i j k => if i = ii ∧ j = jj ∧ k = kk then v else x.data i j k }

/-- The inverted main diagonal as consumed by the sweeps: only
`aInv.ArrayMult(ii, jj, kk, vec)` (the action v ↦ A⁻¹(c)·v) is used.  The
block-matrix container itself is an external collaborator, so the action is
an arbitrary function field. -/
structure matMultiArray3d (n : ℕ) where
  ArrayMult : ℤ → ℤ → ℤ → varArray n → varArray n

/-- The three `matMultiArray3d` mutation methods used by `InvertDiagonal`,
over an abstract per-cell block type D (the L×L matrix container is an
external collaborator): scale the diagonal block by a factor, add c·I to
it, and replace it by its inverse. -/
structure diagOps (D : Type) where
  MultiplyOnDiagonal : D → ℚ → D
  AddOnDiagonal : D → ℚ → D
  Inverse : D → D

/-- The block interface consumed from `procBlock` (extents and the per-cell
quantities used by linearSolver.cpp).  P is the type of the physics models,
which the subsystem only threads through. -/
structure procBlock (P : Type) (n : ℕ) where
  NumI : ℕ
  NumJ : ℕ
  NumK : ℕ
  NumGhosts : ℕ
  Residual : ℤ → ℤ → ℤ → varArray n
  SolDeltaNm1 : ℤ → ℤ → ℤ → input → varArray n
  SolDeltaMmN : ℤ → ℤ → ℤ → input → P → varArray n
  SolDeltaNCoeff : ℤ → ℤ → ℤ → input → ℚ
  SpectralRadius : ℤ → ℤ → ℤ → varArray n
  ImplicitLower : ℤ → ℤ → ℤ → blkMultiArray3d n → P → input → varArray n
  ImplicitUpper : ℤ → ℤ → ℤ → blkMultiArray3d n → P → input → varArray n

/-- Modelled from the spec: `procBlock::StartI` (procBlock.hpp is not under
src/).  Physical cells are 0-based: the i-loop runs over [0, NumI). -/
def procBlock.StartI {P : Type} {n : ℕ} (_ : procBlock P n) : ℤ := 0

/-- Modelled from the spec: `procBlock::EndI` — one past the last interior
i-index. -/
def procBlock.EndI {P : Type} {n : ℕ} (b : procBlock P n) : ℤ := b.NumI

/-- Modelled from the spec: `procBlock::StartJ`. -/
def procBlock.StartJ {P : Type} {n : ℕ} (_ : procBlock P n) : ℤ := 0

/-- Modelled from the spec: `procBlock::EndJ`. -/
def procBlock.EndJ {P : Type} {n : ℕ} (b : procBlock P n) : ℤ := b.NumJ

/-- Modelled from the spec: `procBlock::StartK`. -/
def procBlock.StartK {P : Type} {n : ℕ} (_ : procBlock P n) : ℤ := 0

/-- Modelled from the spec: `procBlock::EndK`. -/
def procBlock.EndK {P : Type} {n : ℕ} (b : procBlock P n) : ℤ := b.NumK

/-- `procBlock::NumCells` — the number of interior cells. -/
def procBlock.NumCells {P : Type} {n : ℕ} (b : procBlock P n) : ℕ :=
  b.NumI * b.NumJ * b.NumK

/-- The integer interval [a, b) as a list, in increasing order: the index
sequence of a C++ loop `for (x = a; x < b; ++x)`. -/
def intRange (a b : ℤ) : List ℤ :=
  List.map (fun t : ℕ => a + (t : ℤ)) (List.range (b - a).toNat)

/-- All interior cells of a block of extent (ni, nj, nk), in the natural
traversal order of linearSolver.cpp's triple loops: kk outermost, then jj,
then ii innermost. -/
def natCells (ni nj nk : ℕ) : List Cell :=
  (intRange 0 nk).flatMap fun kk =>
    (intRange 0 nj).flatMap fun jj =>
      (intRange 0 ni).map fun ii => (ii, jj, kk)

/-- The cell sequence of the triple loop
`for kk = StartK..EndK, for jj = StartJ..EndJ, for ii = StartI..EndI`. -/
def cellList {P : Type} {n : ℕ} (blk : procBlock P n) : List Cell :=
  (intRange blk.StartK blk.EndK).flatMap fun kk =>
    (intRange blk.StartJ blk.EndJ).flatMap fun jj =>
      (intRange blk.StartI blk.EndI).map fun ii => (ii, jj, kk)

/-- A cell index lies in the block's interior (physical-cell) range. -/
def isInterior {P : Type} {n : ℕ} (blk : procBlock P n) (i j k : ℤ) : Prop :=
  blk.StartI ≤ i ∧ i < blk.EndI ∧ blk.StartJ ≤ j ∧ j < blk.EndJ ∧
    blk.StartK ≤ k ∧ k < blk.EndK

instance {P : Type} {n : ℕ} (blk : procBlock P n) (i j k : ℤ) :
    Decidable (isInterior blk i j k) := by
  unfold isInterior; infer_instance

/-- `linearSolver::InitializeMatrixUpdate` (linearSolver.cpp:34-65): allocate
the update field with the block's extent, all entries zero; if the solver
policy requires initialization, fill every interior cell with
A⁻¹(c)·(−θ⁻¹·R(c) + δN₋₁(c) − δM₋N(c, phys)). -/
def InitializeMatrixUpdate {P : Type} {n : ℕ} (blk : procBlock P n) (inp : input)
    (phys : P) (aInv : matMultiArray3d n) : blkMultiArray3d n :=
  let x : blkMultiArray3d n :=
    ⟨blk.NumI, blk.NumJ, blk.NumK, blk.NumGhosts, fun _ _ _ => 0⟩
  if inp.MatrixRequiresInitialization then
    let thetaInv : ℚ := 1 / inp.Theta
    (cellList blk).foldl
      (fun x c =>
        x.InsertBlock c.1 c.2.1 c.2.2
          (aInv.ArrayMult c.1 c.2.1 c.2.2
            ((-thetaInv) • blk.Residual c.1 c.2.1 c.2.2 +
              blk.SolDeltaNm1 c.1 c.2.1 c.2.2 inp -
              blk.SolDeltaMmN c.1 c.2.1 c.2.2 inp phys)))
      x
  else x

/-- `linearSolver::InvertDiagonal` (linearSolver.cpp:67-91): for each interior
cell, compute diagVolTime = SolDeltaNCoeff, augmented by
max(SpectralRadius)/DualTimeCFL when dual time stepping is active; then scale
the diagonal block by the matrix-relaxation factor, add diagVolTime on the
diagonal, and invert the block in place. -/
def InvertDiagonal {P D : Type} {n : ℕ} (ops : diagOps D) (blk : procBlock P n)
    (inp : input) (mainDiagonal : ℤ → ℤ → ℤ → D) : ℤ → ℤ → ℤ → D :=
  (cellList blk).foldl
    (fun m c =>
      let diagVolTime := blk.SolDeltaNCoeff c.1 c.2.1 c.2.2 inp
      let diagVolTime :=
        if 0 < inp.DualTimeCFL then
          diagVolTime + vMax (blk.SpectralRadius c.1 c.2.1 c.2.2) / inp.DualTimeCFL
        else diagVolTime
      let newBlock :=
        ops.Inverse
          (ops.AddOnDiagonal
            (ops.MultiplyOnDiagonal (m c.1 c.2.1 c.2.2) inp.MatrixRelaxation)
            diagVolTime)
      fun i j k => if i = c.1 ∧ j = c.2.1 ∧ k = c.2.2 then newBlock else m i j k)
    mainDiagonal

/-- Modelled from the spec: `HyperplaneReorder` (declared in utility.hpp; its
definition is not under src/).  Per §4.1 it produces, from the block extents,
a permutation of the NI·NJ·NK interior cell indices sorted primarily by
s = i + j + k ascending, with a deterministic secondary order (the natural
traversal order within each hyperplane). -/
def HyperplaneReorder (ni nj nk : ℕ) : List Cell :=
  (List.range (ni + nj + nk)).flatMap fun s =>
    (natCells ni nj nk).filter fun c => c.1 + c.2.1 + c.2.2 = (s : ℤ)

namespace lusgs

/-- The loop body of `lusgs::LUSGS_Forward` (linearSolver.cpp:225-247), at one
cell of the reorder table: take the lower off-diagonal action, subtract the
upper action when sweep > 0 or the update was initialized, form the b terms,
and store A⁻¹(c)·(b + offDiagonal). -/
def forwardStep {P : Type} {n : ℕ} (blk : procBlock P n) (phys : P) (inp : input)
    (aInv : matMultiArray3d n) (sweep : ℤ) (x : blkMultiArray3d n) (c : Cell) :
    blkMultiArray3d n :=
  let thetaInv : ℚ := 1 / inp.Theta
  let ii := c.1
  let jj := c.2.1
  let kk := c.2.2
  let offDiagonal := blk.ImplicitLower ii jj kk x phys inp
  let offDiagonal :=
    if 0 < sweep ∨ inp.MatrixRequiresInitialization then
      offDiagonal - blk.ImplicitUpper ii jj kk x phys inp
    else offDiagonal
  let solDeltaNm1 := blk.SolDeltaNm1 ii jj kk inp
  let solDeltaMmN := blk.SolDeltaMmN ii jj kk inp phys
  let b := (-thetaInv) • blk.Residual ii jj kk + solDeltaNm1 - solDeltaMmN
  x.InsertBlock ii jj kk (aInv.ArrayMult ii jj kk (b + offDiagonal))

/-- `lusgs::LUSGS_Forward` (linearSolver.cpp:208-248): visit the reorder table
in order, applying `forwardStep` at each cell. -/
def LUSGS_Forward {P : Type} {n : ℕ} (blk : procBlock P n) (reorder : List Cell)
    (phys : P) (inp : input) (aInv : matMultiArray3d n) (sweep : ℤ)
    (x : blkMultiArray3d n) : blkMultiArray3d n :=
  reorder.foldl (forwardStep blk phys inp aInv sweep) x

/-- The loop body of `lusgs::LUSGS_Backward` (linearSolver.cpp:268-292), at
one cell: take the upper action U, remember the old value, either store
A⁻¹(c)·(b + L − U) (sweep > 0 or initialized) or old − A⁻¹(c)·U, and
accumulate the componentwise squared change. -/
def backwardStep {P : Type} {n : ℕ} (blk : procBlock P n) (phys : P) (inp : input)
    (aInv : matMultiArray3d n) (sweep : ℤ) (acc : varArray n × blkMultiArray3d n)
    (c : Cell) : varArray n × blkMultiArray3d n :=
  let thetaInv : ℚ := 1 / inp.Theta
  let ii := c.1
  let jj := c.2.1
  let kk := c.2.2
  let x := acc.2
  let U := blk.ImplicitUpper ii jj kk x phys inp
  let xold := x.GetCopy ii jj kk
  let xnew :=
    if 0 < sweep ∨ inp.MatrixRequiresInitialization then
      let L := blk.ImplicitLower ii jj kk x phys inp
      let solDeltaNm1 := blk.SolDeltaNm1 ii jj kk inp
      let solDeltaMmN := blk.SolDeltaMmN ii jj kk inp phys
      let b := (-thetaInv) • blk.Residual ii jj kk + solDeltaNm1 - solDeltaMmN
      x.InsertBlock ii jj kk (aInv.ArrayMult ii jj kk (b + L - U))
    else
      x.InsertBlock ii jj kk (xold - aInv.ArrayMult ii jj kk U)
  let error := xnew.Get ii jj kk - xold
  (acc.1 + error * error, xnew)

/-- `lusgs::LUSGS_Backward` (linearSolver.cpp:250-295): visit the reorder
table in reverse, applying `backwardStep` at each cell; return the sum of the
accumulated error vector. -/
def LUSGS_Backward {P : Type} {n : ℕ} (blk : procBlock P n) (reorder : List Cell)
    (phys : P) (inp : input) (aInv : matMultiArray3d n) (sweep : ℤ)
    (x : blkMultiArray3d n) : ℚ × blkMultiArray3d n :=
  let res := reorder.reverse.foldl (backwardStep blk phys inp aInv sweep) (0, x)
  (vSum res.1, res.2)

end lusgs

/-- The grid level consumed by `Relax`: the local blocks, their (inverted)
main diagonals, and the connection table (an abstract type C owned by the
exchange collaborator). -/
structure gridLevel (P C : Type) (n : ℕ) where
  blocks : List (procBlock P n)
  diagonals : List (matMultiArray3d n)
  connections : C

/-- Modelled from the spec: the signature of the external collective
`SwapImplicitUpdate(du, connections, rank, numGhosts)` (utility.cpp, not
under src/), which exchanges ghost-cell layers of the update field between
connected blocks.  The subsystem only calls it, so it is embedded as an
arbitrary function of this signature. -/
abbrev SwapFn (C : Type) (n : ℕ) :=
  List (blkMultiArray3d n) → C → ℤ → ℕ → List (blkMultiArray3d n)

/-- Elementwise combination of three lists (the `for (bb = 0; bb < NumBlocks)`
loops pairing each block with its diagonal and its update field). -/
def zipWith3 {α β γ δ : Type} (f : α → β → γ → δ) :
    List α → List β → List γ → List δ
  | a :: as, b :: bs, c :: cs => f a b c :: zipWith3 f as bs cs
  | _, _, _ => []

namespace lusgs

/-- One forward pass over all local blocks (linearSolver.cpp:315-318).  The
reorder table used for each block is the one built at `lusgs` construction
(linearSolver.cpp:93-101) from that block's extents. -/
def forwardSweepBlocks {P : Type} {n : ℕ} (phys : P) (inp : input) (sweep : ℤ)
    (blocks : List (procBlock P n)) (diags : List (matMultiArray3d n))
    (du : List (blkMultiArray3d n)) : List (blkMultiArray3d n) :=
  zipWith3
    (fun b d x => LUSGS_Forward b (HyperplaneReorder b.NumI b.NumJ b.NumK) phys inp d sweep x)
    blocks diags du

/-- One backward pass over all local blocks, accumulating the per-block
errors (linearSolver.cpp:324-327). -/
def backwardSweepBlocks {P : Type} {n : ℕ} (phys : P) (inp : input) (sweep : ℤ)
    (blocks : List (procBlock P n)) (diags : List (matMultiArray3d n))
    (du : List (blkMultiArray3d n)) : ℚ × List (blkMultiArray3d n) :=
  let rs := zipWith3
    (fun b d x => LUSGS_Backward b (HyperplaneReorder b.NumI b.NumJ b.NumK) phys inp d sweep x)
    blocks diags du
  ((rs.map Prod.fst).sum, rs.map Prod.snd)

/-- The body of one `lusgs::Relax` sweep: ghost exchange, forward pass,
ghost exchange, backward pass. -/
def sweepOnce {P C : Type} {n : ℕ} (swap : SwapFn C n) (level : gridLevel P C n)
    (phys : P) (inp : input) (rank : ℤ) (numG : ℕ) (sweep : ℤ)
    (du : List (blkMultiArray3d n)) : ℚ × List (blkMultiArray3d n) :=
  let du1 := swap du level.connections rank numG
  let du2 := forwardSweepBlocks phys inp sweep level.blocks level.diagonals du1
  let du3 := swap du2 level.connections rank numG
  backwardSweepBlocks phys inp sweep level.blocks level.diagonals du3

/-- The sweep loop of `lusgs::Relax` (linearSolver.cpp:310-328): `fuel`
iterations remain, `sweep` is the current sweep index, `err` the error
accumulated so far. -/
def RelaxLoop {P C : Type} {n : ℕ} (swap : SwapFn C n) (level : gridLevel P C n)
    (phys : P) (inp : input) (rank : ℤ) (numG : ℕ) :
    ℕ → ℤ → ℚ → List (blkMultiArray3d n) → ℚ × List (blkMultiArray3d n)
  | 0, _, err, du => (err, du)
  | fuel + 1, sweep, err, du =>
      let r := sweepOnce swap level phys inp rank numG sweep du
      RelaxLoop swap level phys inp rank numG fuel (sweep + 1) (err + r.1) r.2

/-- `lusgs::Relax` (linearSolver.cpp:297-330).  `level.Block(0).NumGhosts()`
is read unconditionally before the sweep loop; on a level with no blocks that
access has no defined value, embedded as `none`. -/
def Relax {P C : Type} {n : ℕ} (swap : SwapFn C n) (level : gridLevel P C n)
    (phys : P) (inp : input) (rank : ℤ) (sweeps : ℤ)
    (du : List (blkMultiArray3d n)) : Option (ℚ × List (blkMultiArray3d n)) :=
  match level.blocks with
  | [] => none
  | b0 :: _ => some (RelaxLoop swap level phys inp rank b0.NumGhosts sweeps.toNat 0 0 du)

end lusgs

namespace dplur

/-- The loop body of `dplur::DPLUR` (linearSolver.cpp:349-368), at one cell:
both off-diagonal actions are evaluated on the frozen copy `xold` of the
update field taken at sweep entry; the new value is stored and the
componentwise squared change against `xold` is accumulated. -/
def DPLURstep {P : Type} {n : ℕ} (blk : procBlock P n) (phys : P) (inp : input)
    (aInv : matMultiArray3d n) (xold : blkMultiArray3d n)
    (acc : varArray n × blkMultiArray3d n) (c : Cell) :
    varArray n × blkMultiArray3d n :=
  let thetaInv : ℚ := 1 / inp.Theta
  let ii := c.1
  let jj := c.2.1
  let kk := c.2.2
  let offDiagonal := blk.ImplicitLower ii jj kk xold phys inp
  let offDiagonal := offDiagonal - blk.ImplicitUpper ii jj kk xold phys inp
  let solDeltaNm1 := blk.SolDeltaNm1 ii jj kk inp
  let solDeltaMmN := blk.SolDeltaMmN ii jj kk inp phys
  let b := (-thetaInv) • blk.Residual ii jj kk + solDeltaNm1 - solDeltaMmN
  let xn := acc.2.InsertBlock ii jj kk (aInv.ArrayMult ii jj kk (b + offDiagonal))
  let error := xn.Get ii jj kk - xold.Get ii jj kk
  (acc.1 + error * error, xn)

/-- `dplur::DPLUR` (linearSolver.cpp:333-371) generalized over the cell
visiting order `l`; the source uses the natural triple-loop order (see
`DPLUR`). -/
def DPLUR_order {P : Type} {n : ℕ} (l : List Cell) (blk : procBlock P n)
    (phys : P) (inp : input) (aInv : matMultiArray3d n)
    (x : blkMultiArray3d n) : ℚ × blkMultiArray3d n :=
  let xold := x
  let res := l.foldl (DPLURstep blk phys inp aInv xold) (0, x)
  (vSum res.1, res.2)

/-- `dplur::DPLUR` with the source's triple-loop visiting order. -/
def DPLUR {P : Type} {n : ℕ} (blk : procBlock P n) (phys : P) (inp : input)
    (aInv : matMultiArray3d n) (x : blkMultiArray3d n) : ℚ × blkMultiArray3d n :=
  DPLUR_order (cellList blk) blk phys inp aInv x

/-- The body of one `dplur::Relax` sweep (linearSolver.cpp:385-393): ghost
exchange, then one DPLUR pass per block; the double returned by `DPLUR` is
discarded (only the mutated update field is kept). -/
def sweepOnce {P C : Type} {n : ℕ} (swap : SwapFn C n) (level : gridLevel P C n)
    (phys : P) (inp : input) (rank : ℤ) (numG : ℕ)
    (du : List (blkMultiArray3d n)) : List (blkMultiArray3d n) :=
  let du1 := swap du level.connections rank numG
  zipWith3 (fun b d x => (DPLUR b phys inp d x).2) level.blocks level.diagonals du1

/-- The sweep loop of `dplur::Relax`: `matrixError` is threaded through but
never modified, exactly as in the source. -/
def RelaxLoop {P C : Type} {n : ℕ} (swap : SwapFn C n) (level : gridLevel P C n)
    (phys : P) (inp : input) (rank : ℤ) (numG : ℕ) :
    ℕ → ℚ → List (blkMultiArray3d n) → ℚ × List (blkMultiArray3d n)
  | 0, err, du => (err, du)
  | fuel + 1, err, du =>
      RelaxLoop swap level phys inp rank numG fuel err
        (sweepOnce swap level phys inp rank numG du)

/-- `dplur::Relax` (linearSolver.cpp:373-395). -/
def Relax {P C : Type} {n : ℕ} (swap : SwapFn C n) (level : gridLevel P C n)
    (phys : P) (inp : input) (rank : ℤ) (sweeps : ℤ)
    (du : List (blkMultiArray3d n)) : Option (ℚ × List (blkMultiArray3d n)) :=
  match level.blocks with
  | [] => none
  | b0 :: _ => some (RelaxLoop swap level phys inp rank b0.NumGhosts sweeps.toNat 0 du)

end dplur

/-- The value a DP-LUR pass writes at cell c.  Every neighbor read goes
through the frozen sweep-entry field xold, so the value is a function of the
cell and the entry state only. -/
def dplurVal {P : Type} {n : ℕ} (blk : procBlock P n) (phys : P) (inp : input)
    (aInv : matMultiArray3d n) (xold : blkMultiArray3d n) (c : Cell) : varArray n :=
  aInv.ArrayMult c.1 c.2.1 c.2.2
    ((-(1 / inp.Theta)) • blk.Residual c.1 c.2.1 c.2.2 +
        blk.SolDeltaNm1 c.1 c.2.1 c.2.2 inp -
        blk.SolDeltaMmN c.1 c.2.1 c.2.2 inp phys +
      (blk.ImplicitLower c.1 c.2.1 c.2.2 xold phys inp -
        blk.ImplicitUpper c.1 c.2.1 c.2.2 xold phys inp))

/-- The componentwise squared change a DP-LUR pass accumulates at cell c. -/
def dplurErrTerm {P : Type} {n : ℕ} (blk : procBlock P n) (phys : P) (inp : input)
    (aInv : matMultiArray3d n) (xold : blkMultiArray3d n) (c : Cell) : varArray n :=
  (dplurVal blk phys inp aInv xold c - xold.Get c.1 c.2.1 c.2.2) *
    (dplurVal blk phys inp aInv xold c - xold.Get c.1 c.2.1 c.2.2)

/-- The spec's wording of the forward-sweep body (§4.4 steps 1-4), for the
refinement claim: off takes `ImplicitLower`; the upper term is subtracted
exactly when s > 0 or the initializer ran (zero otherwise);
b ← −θ⁻¹·R + δN₋₁ − δM₋N; Δu(c) ← A⁻¹(c)·(b + off). -/
def specForwardStep {P : Type} {n : ℕ} (blk : procBlock P n) (phys : P)
    (inp : input) (aInv : matMultiArray3d n) (sweep : ℤ) (x : blkMultiArray3d n)
    (c : Cell) : blkMultiArray3d n :=
  let off := blk.ImplicitLower c.1 c.2.1 c.2.2 x phys inp -
    (if 0 < sweep ∨ inp.MatrixRequiresInitialization then
      blk.ImplicitUpper c.1 c.2.1 c.2.2 x phys inp
    else 0)
  let b := (-(1 / inp.Theta)) • blk.Residual c.1 c.2.1 c.2.2 +
    blk.SolDeltaNm1 c.1 c.2.1 c.2.2 inp - blk.SolDeltaMmN c.1 c.2.1 c.2.2 inp phys
  x.InsertBlock c.1 c.2.1 c.2.2 (aInv.ArrayMult c.1 c.2.1 c.2.2 (b + off))

/-- The spec's forward sweep (§4.4): visit the reorder table in order. -/
def specForwardSweep {P : Type} {n : ℕ} (blk : procBlock P n) (reorder : List Cell)
    (phys : P) (inp : input) (aInv : matMultiArray3d n) (sweep : ℤ)
    (x : blkMultiArray3d n) : blkMultiArray3d n :=
  reorder.foldl (specForwardStep blk phys inp aInv sweep) x

/-- The spec's wording of the backward-sweep body (§4.5), for the refinement
claim: U from the upper neighbors, Δu_old remembered, the branch on s > 0 or
initialization, and the scalar ‖Δu(c) − Δu_old‖² accumulated at every cell. -/
def specBackwardStep {P : Type} {n : ℕ} (blk : procBlock P n) (phys : P)
    (inp : input) (aInv : matMultiArray3d n) (sweep : ℤ)
    (acc : ℚ × blkMultiArray3d n) (c : Cell) : ℚ × blkMultiArray3d n :=
  let x := acc.2
  let U := blk.ImplicitUpper c.1 c.2.1 c.2.2 x phys inp
  let duOld := x.Get c.1 c.2.1 c.2.2
  let xn :=
    if 0 < sweep ∨ inp.MatrixRequiresInitialization then
      let L := blk.ImplicitLower c.1 c.2.1 c.2.2 x phys inp
      let b := (-(1 / inp.Theta)) • blk.Residual c.1 c.2.1 c.2.2 +
        blk.SolDeltaNm1 c.1 c.2.1 c.2.2 inp -
        blk.SolDeltaMmN c.1 c.2.1 c.2.2 inp phys
      x.InsertBlock c.1 c.2.1 c.2.2 (aInv.ArrayMult c.1 c.2.1 c.2.2 (b + L - U))
    else
      x.InsertBlock c.1 c.2.1 c.2.2 (duOld - aInv.ArrayMult c.1 c.2.1 c.2.2 U)
  (acc.1 +
      vSum ((xn.Get c.1 c.2.1 c.2.2 - duOld) * (xn.Get c.1 c.2.1 c.2.2 - duOld)),
    xn)

/-- The spec's backward sweep (§4.5): visit the reorder table in reverse and
return the summed L2 error. -/
def specBackwardSweep {P : Type} {n : ℕ} (blk : procBlock P n) (reorder : List Cell)
    (phys : P) (inp : input) (aInv : matMultiArray3d n) (sweep : ℤ)
    (x : blkMultiArray3d n) : ℚ × blkMultiArray3d n :=
  reorder.reverse.foldl (specBackwardStep blk phys inp aInv sweep) (0, x)

/-! ### Concrete fixtures, used to evaluate the development on closed inputs -/

/-- A concrete single-equation input set: θ = 1, no dual time stepping,
ω = 1, initialization required. -/
def sampleInput : input := ⟨1, 0, 1, 0, 1, true⟩

/-- As `sampleInput` but with dual-time CFL = 2. -/
def sampleInputCFL : input := ⟨1, 0, 1, 2, 1, true⟩

/-- As `sampleInput` but with no initialization required. -/
def sampleInputNoInit : input := ⟨1, 0, 1, 0, 1, false⟩

/-- A concrete 1×1×1 single-equation block with one ghost layer, unit
residual, zero spectral radius and vanishing off-diagonal actions. -/
def sampleBlock : procBlock Unit 1 where
  NumI := 1
  NumJ := 1
  NumK := 1
  NumGhosts := 1
  Residual := fun _ _ _ => fun _ => 1
  SolDeltaNm1 := fun _ _ _ _ => 0
  SolDeltaMmN := fun _ _ _ _ _ => 0
  SolDeltaNCoeff := fun _ _ _ _ => 2
  SpectralRadius := fun _ _ _ => 0
  ImplicitLower := fun _ _ _ _ _ _ => 0
  ImplicitUpper := fun _ _ _ _ _ _ => 0

/-- A concrete 2×1×1 block (two interior cells). -/
def sampleBlock2 : procBlock Unit 1 where
  NumI := 2
  NumJ := 1
  NumK := 1
  NumGhosts := 1
  Residual := fun _ _ _ => fun _ => 1
  SolDeltaNm1 := fun _ _ _ _ => 0
  SolDeltaMmN := fun _ _ _ _ _ => 0
  SolDeltaNCoeff := fun _ _ _ _ => 2
  SpectralRadius := fun _ _ _ => 0
  ImplicitLower := fun _ _ _ _ _ _ => 0
  ImplicitUpper := fun _ _ _ _ _ _ => 0

/-- Identity action standing in for the inverted diagonal. -/
def sampleAInv : matMultiArray3d 1 := ⟨fun _ _ _ v => v⟩

/-- A zero update field with the extent of `sampleBlock`. -/
def sampleX : blkMultiArray3d 1 := ⟨1, 1, 1, 1, fun _ _ _ => 0⟩

/-- A one-block grid level. -/
def sampleLevel : gridLevel Unit Unit 1 := ⟨[sampleBlock], [sampleAInv], ()⟩

/-- A grid level with no blocks. -/
def emptyLevel : gridLevel Unit Unit 1 := ⟨[], [], ()⟩

/-- A ghost exchange that leaves the update fields unchanged. -/
def sampleSwap : SwapFn Unit 1 := fun du _ _ _ => du

/-- Scalar diagonal-block operations (1×1 blocks as rationals). -/
def sampleOps : diagOps ℚ := ⟨fun d w => d * w, fun d c0 => d + c0, fun d => 1 / d⟩

/-- A unit diagonal. -/
def sampleDiag : ℤ → ℤ → ℤ → ℚ := fun _ _ _ => 1

/-! ### Basic facts about the containers and cell lists -/

theorem blkMultiArray3d.Get_InsertBlock_self {n : ℕ} (x : blkMultiArray3d n)
    (ii jj kk : ℤ) (v : varArray n) :
    (x.InsertBlock ii jj kk v).Get ii jj kk = v := by
  simp [blkMultiArray3d.Get, blkMultiArray3d.InsertBlock]

theorem blkMultiArray3d.Get_InsertBlock_ne {n : ℕ} (x : blkMultiArray3d n)
    (ii jj kk i j k : ℤ) (v : varArray n) (h : ¬(i = ii ∧ j = jj ∧ k = kk)) :
    (x.InsertBlock ii jj kk v).Get i j k = x.Get i j k := by
  simp only [blkMultiArray3d.Get, blkMultiArray3d.InsertBlock, if_neg h]

theorem mem_intRange {a b x : ℤ} : x ∈ intRange a b ↔ a ≤ x ∧ x < b := by
  unfold intRange
  simp only [List.mem_map, List.mem_range]
  constructor
  · rintro ⟨t, ht, rfl⟩; omega
  · rintro ⟨h1, h2⟩
    exact ⟨(x - a).toNat, by omega, by omega⟩

theorem nodup_intRange (a b : ℤ) : (intRange a b).Nodup := by
  unfold intRange
  refine List.Nodup.map ?_ (List.nodup_range _)
  intro t1 t2 h
  simpa using h

theorem mem_natCells {ni nj nk : ℕ} {c : Cell} :
    c ∈ natCells ni nj nk ↔
      0 ≤ c.1 ∧ c.1 < ni ∧ 0 ≤ c.2.1 ∧ c.2.1 < nj ∧ 0 ≤ c.2.2 ∧ c.2.2 < nk := by
  obtain ⟨i, j, k⟩ := c
  simp only [natCells, List.mem_flatMap, List.mem_map, mem_intRange, Prod.mk.injEq]
  constructor
  · rintro ⟨kk, hk, jj, hj, ii, hi, rfl, rfl, rfl⟩
    exact ⟨hi.1, hi.2, hj.1, hj.2, hk.1, hk.2⟩
  · rintro ⟨h1, h2, h3, h4, h5, h6⟩
    exact ⟨k, ⟨h5, h6⟩, j, ⟨h3, h4⟩, i, ⟨h1, h2⟩, rfl, rfl, rfl⟩

theorem nodup_natCells (ni nj nk : ℕ) : (natCells ni nj nk).Nodup := by
  unfold natCells
  rw [List.nodup_flatMap]
  refine ⟨fun kk _ => ?_, ?_⟩
  · rw [List.nodup_flatMap]
    refine ⟨fun jj _ => ?_, ?_⟩
    · refine List.Nodup.map ?_ (nodup_intRange 0 ni)
      intro a b hab
      simpa using hab
    · refine List.Pairwise.imp ?_ (nodup_intRange 0 nj)
      intro j1 j2 hne x hx1 hx2
      simp only [List.mem_map] at hx1 hx2
      obtain ⟨i1, _, rfl⟩ := hx1
      obtain ⟨i2, _, h2⟩ := hx2
      exact hne (by simpa using congrArg (fun c : Cell => c.2.1) h2.symm)
  · refine List.Pairwise.imp ?_ (nodup_intRange 0 nk)
    intro k1 k2 hne x hx1 hx2
    simp only [List.mem_flatMap, List.mem_map] at hx1 hx2
    obtain ⟨j1, _, i1, _, rfl⟩ := hx1
    obtain ⟨j2, _, i2, _, h2⟩ := hx2
    exact hne (by simpa using congrArg (fun c : Cell => c.2.2) h2.symm)

theorem cellList_eq_natCells {P : Type} {n : ℕ} (blk : procBlock P n) :
    cellList blk = natCells blk.NumI blk.NumJ blk.NumK := rfl

theorem mem_cellList {P : Type} {n : ℕ} (blk : procBlock P n) (c : Cell) :
    c ∈ cellList blk ↔ isInterior blk c.1 c.2.1 c.2.2 := by
  rw [cellList_eq_natCells, mem_natCells]
  unfold isInterior procBlock.StartI procBlock.EndI procBlock.StartJ
    procBlock.EndJ procBlock.StartK procBlock.EndK
  tauto

theorem nodup_cellList {P : Type} {n : ℕ} (blk : procBlock P n) :
    (cellList blk).Nodup := by
  rw [cellList_eq_natCells]; exact nodup_natCells _ _ _

theorem foldr_max_replicate_zero : ∀ m : ℕ, (List.replicate m (0 : ℚ)).foldr max 0 = 0 := by
  intro m
  induction m with
  | zero => rfl
  | succ p ih => simp [List.replicate_succ, ih]

theorem vMax_zero {n : ℕ} : vMax (0 : varArray n) = 0 := by
  unfold vMax
  have h : (List.ofFn (0 : varArray n)) = List.replicate n 0 := List.ofFn_const n 0
  rw [h, foldr_max_replicate_zero]

/-! ### Fold lemmas: where a sweep writes, and what it writes -/

/-- A fold whose step only ever writes the visited cell leaves every other
cell's value unchanged. -/
theorem foldl_frame {n : ℕ} (step : blkMultiArray3d n → Cell → blkMultiArray3d n)
    (i j k : ℤ)
    (hstep : ∀ x c, ¬(i = c.1 ∧ j = c.2.1 ∧ k = c.2.2) →
      (step x c).Get i j k = x.Get i j k) :
    ∀ (l : List Cell), (i, j, k) ∉ l →
      ∀ x : blkMultiArray3d n, (l.foldl step x).Get i j k = x.Get i j k := by
  intro l
  induction l with
  | nil => intro _ x; rfl
  | cons a t ih =>
    intro hl x
    obtain ⟨a1, a2, a3⟩ := a
    have hl1 : ¬(i = a1 ∧ j = a2 ∧ k = a3) := by
      rintro ⟨rfl, rfl, rfl⟩
      exact hl (List.mem_cons_self _ _)
    have hl2 : (i, j, k) ∉ t := fun h => hl (List.mem_cons_of_mem _ h)
    simp only [List.foldl_cons]
    rw [ih hl2, hstep x (a1, a2, a3) hl1]

/-- Same frame lemma for a fold that also threads an accumulator in the first
component. -/
theorem foldl_frame_pair {n : ℕ} {σ : Type}
    (step : σ × blkMultiArray3d n → Cell → σ × blkMultiArray3d n) (i j k : ℤ)
    (hstep : ∀ acc c, ¬(i = c.1 ∧ j = c.2.1 ∧ k = c.2.2) →
      ((step acc c).2).Get i j k = acc.2.Get i j k) :
    ∀ (l : List Cell), (i, j, k) ∉ l →
      ∀ acc : σ × blkMultiArray3d n,
        ((l.foldl step acc).2).Get i j k = acc.2.Get i j k := by
  intro l
  induction l with
  | nil => intro _ acc; rfl
  | cons a t ih =>
    intro hl acc
    obtain ⟨a1, a2, a3⟩ := a
    have hl1 : ¬(i = a1 ∧ j = a2 ∧ k = a3) := by
      rintro ⟨rfl, rfl, rfl⟩
      exact hl (List.mem_cons_self _ _)
    have hl2 : (i, j, k) ∉ t := fun h => hl (List.mem_cons_of_mem _ h)
    simp only [List.foldl_cons]
    rw [ih hl2, hstep acc (a1, a2, a3) hl1]

/-- Evaluating a fold of insertions whose inserted value depends only on the
visited cell: cells in the list end at their prescribed value, all others are
untouched. -/
theorem foldl_insertg_get {n : ℕ} (g : Cell → varArray n) :
    ∀ (l : List Cell) (x0 : blkMultiArray3d n) (i j k : ℤ),
      (l.foldl (fun x c => x.InsertBlock c.1 c.2.1 c.2.2 (g c)) x0).Get i j k =
        if (i, j, k) ∈ l then g (i, j, k) else x0.Get i j k := by
  intro l
  induction l with
  | nil => intro x0 i j k; simp
  | cons a t ih =>
    intro x0 i j k
    obtain ⟨a1, a2, a3⟩ := a
    simp only [List.foldl_cons]
    rw [ih]
    by_cases hmem : (i, j, k) ∈ t
    · rw [if_pos hmem, if_pos (List.mem_cons_of_mem _ hmem)]
    · by_cases ha : i = a1 ∧ j = a2 ∧ k = a3
      · obtain ⟨rfl, rfl, rfl⟩ := ha
        rw [if_neg hmem, if_pos (List.mem_cons_self _ _),
          blkMultiArray3d.Get_InsertBlock_self]
      · have hne : (i, j, k) ≠ (a1, a2, a3) := by
          intro h
          exact ha (by simpa [Prod.ext_iff] using h)
        rw [if_neg hmem, blkMultiArray3d.Get_InsertBlock_ne _ _ _ _ _ _ _ _ ha,
          if_neg (by
            intro h
            rcases List.mem_cons.mp h with h | h
            · exact hne h
            · exact hmem h)]

/-- The four extent fields are invariant under a fold of insertions. -/
theorem foldl_insert_dims {n : ℕ}
    (step : blkMultiArray3d n → Cell → blkMultiArray3d n)
    (hstep : ∀ x c, (step x c).NumI = x.NumI ∧ (step x c).NumJ = x.NumJ ∧
      (step x c).NumK = x.NumK ∧ (step x c).NumGhosts = x.NumGhosts) :
    ∀ (l : List Cell) (x0 : blkMultiArray3d n),
      (l.foldl step x0).NumI = x0.NumI ∧ (l.foldl step x0).NumJ = x0.NumJ ∧
        (l.foldl step x0).NumK = x0.NumK ∧
        (l.foldl step x0).NumGhosts = x0.NumGhosts := by
  intro l
  induction l with
  | nil => intro x0; exact ⟨rfl, rfl, rfl, rfl⟩
  | cons a t ih =>
    intro x0
    simp only [List.foldl_cons]
    obtain ⟨h1, h2, h3, h4⟩ := ih (step x0 a)
    obtain ⟨g1, g2, g3, g4⟩ := hstep x0 a
    exact ⟨h1.trans g1, h2.trans g2, h3.trans g3, h4.trans g4⟩

/-- A fold whose step adds a cell-determined error increment and inserts a
cell-determined value splits into the sum of increments and the fold of
insertions. -/
theorem foldl_pair_insertg {n : ℕ} (g h : Cell → varArray n) :
    ∀ (l : List Cell) (e0 : varArray n) (x0 : blkMultiArray3d n),
      l.foldl (fun acc c => (acc.1 + h c, acc.2.InsertBlock c.1 c.2.1 c.2.2 (g c)))
          (e0, x0) =
        (e0 + (l.map h).sum,
          l.foldl (fun x c => x.InsertBlock c.1 c.2.1 c.2.2 (g c)) x0) := by
  intro l
  induction l with
  | nil => intro e0 x0; simp
  | cons a t ih =>
    intro e0 x0
    simp only [List.foldl_cons, List.map_cons, List.sum_cons]
    rw [ih]
    exact Prod.ext (add_assoc _ _ _) rfl

/-- Evaluating a fold of cell-local updates over a duplicate-free list: each
listed cell's entry is transformed once from its original value, all others
are untouched. -/
theorem foldl_updf_get {D : Type} (F : Cell → D → D) :
    ∀ (l : List Cell), l.Nodup →
      ∀ (m0 : ℤ → ℤ → ℤ → D) (i j k : ℤ),
        (l.foldl
            (fun m c =>
              fun i2 j2 k2 =>
                if i2 = c.1 ∧ j2 = c.2.1 ∧ k2 = c.2.2 then F c (m c.1 c.2.1 c.2.2)
                else m i2 j2 k2)
            m0) i j k =
          if (i, j, k) ∈ l then F (i, j, k) (m0 i j k) else m0 i j k := by
  intro l
  induction l with
  | nil => intro _ m0 i j k; simp
  | cons a t ih =>
    intro hnd m0 i j k
    obtain ⟨a1, a2, a3⟩ := a
    have hat : (a1, a2, a3) ∉ t := (List.nodup_cons.mp hnd).1
    have hnt : t.Nodup := (List.nodup_cons.mp hnd).2
    simp only [List.foldl_cons]
    rw [ih hnt]
    by_cases ha : i = a1 ∧ j = a2 ∧ k = a3
    · obtain ⟨rfl, rfl, rfl⟩ := ha
      rw [if_neg hat, if_pos (List.mem_cons_self _ _)]
      simp
    · by_cases hmem : (i, j, k) ∈ t
      · rw [if_pos hmem, if_pos (List.mem_cons_of_mem _ hmem)]
        simp only [if_neg ha]
      · rw [if_neg hmem]
        simp only [if_neg ha]
        rw [if_neg (by
          intro h
          rcases List.mem_cons.mp h with h | h
          · exact ha (by simpa [Prod.ext_iff] using h)
          · exact hmem h)]

/-! ### The hyperplane reorder table -/

theorem mem_HyperplaneReorder {ni nj nk : ℕ} {c : Cell} :
    c ∈ HyperplaneReorder ni nj nk ↔ c ∈ natCells ni nj nk := by
  unfold HyperplaneReorder
  simp only [List.mem_flatMap, List.mem_filter, List.mem_range, decide_eq_true_eq]
  constructor
  · rintro ⟨s, _, hc, _⟩
    exact hc
  · intro hc
    have hb := mem_natCells.mp hc
    exact ⟨(c.1 + c.2.1 + c.2.2).toNat, by omega, hc, by omega⟩

theorem nodup_HyperplaneReorder (ni nj nk : ℕ) :
    (HyperplaneReorder ni nj nk).Nodup := by
  unfold HyperplaneReorder
  rw [List.nodup_flatMap]
  refine ⟨fun s _ => (nodup_natCells ni nj nk).filter _, ?_⟩
  refine List.Pairwise.imp ?_ (List.nodup_range _)
  intro s1 s2 hne x hx1 hx2
  rw [List.mem_filter] at hx1 hx2
  have e1 := of_decide_eq_true hx1.2
  have e2 := of_decide_eq_true hx2.2
  exact hne (by omega)

theorem hyperplaneReorder_perm (ni nj nk : ℕ) :
    (HyperplaneReorder ni nj nk).Perm (natCells ni nj nk) :=
  List.perm_of_nodup_nodup_toFinset_eq (nodup_HyperplaneReorder ni nj nk)
    (nodup_natCells ni nj nk)
    (Finset.ext fun c => by
      simp only [List.mem_toFinset]
      exact mem_HyperplaneReorder)

theorem hyperplaneReorder_sorted (ni nj nk : ℕ) :
    List.Pairwise (fun c d : Cell => c.1 + c.2.1 + c.2.2 ≤ d.1 + d.2.1 + d.2.2)
      (HyperplaneReorder ni nj nk) := by
  unfold HyperplaneReorder
  rw [List.flatMap_def, List.pairwise_flatten]
  constructor
  · intro l hl
    rw [List.mem_map] at hl
    obtain ⟨s, _, rfl⟩ := hl
    apply List.pairwise_of_forall_mem_list
    intro a ha b hb
    rw [List.mem_filter] at ha hb
    have e1 := of_decide_eq_true ha.2
    have e2 := of_decide_eq_true hb.2
    omega
  · rw [List.pairwise_map]
    refine List.Pairwise.imp ?_ (List.pairwise_lt_range _)
    intro s1 s2 hlt x hx y hy
    rw [List.mem_filter] at hx hy
    have e1 := of_decide_eq_true hx.2
    have e2 := of_decide_eq_true hy.2
    omega

/-! ### Characterization of the DP-LUR sweep -/

theorem DPLURstep_eq {P : Type} {n : ℕ} (blk : procBlock P n) (phys : P)
    (inp : input) (aInv : matMultiArray3d n) (xold : blkMultiArray3d n)
    (acc : varArray n × blkMultiArray3d n) (c : Cell) :
    dplur.DPLURstep blk phys inp aInv xold acc c =
      (acc.1 + dplurErrTerm blk phys inp aInv xold c,
        acc.2.InsertBlock c.1 c.2.1 c.2.2 (dplurVal blk phys inp aInv xold c)) := by
  refine Prod.ext ?_ rfl
  show acc.1 + _ = acc.1 + _
  simp only [dplur.DPLURstep, dplurErrTerm, dplurVal,
    blkMultiArray3d.Get_InsertBlock_self]

theorem DPLUR_order_eq {P : Type} {n : ℕ} (l : List Cell) (blk : procBlock P n)
    (phys : P) (inp : input) (aInv : matMultiArray3d n) (x : blkMultiArray3d n) :
    dplur.DPLUR_order l blk phys inp aInv x =
      (vSum ((0 : varArray n) + (l.map (dplurErrTerm blk phys inp aInv x)).sum),
        l.foldl
          (fun y c => y.InsertBlock c.1 c.2.1 c.2.2 (dplurVal blk phys inp aInv x c))
          x) := by
  unfold dplur.DPLUR_order
  show (vSum (List.foldl (dplur.DPLURstep blk phys inp aInv x) (0, x) l).1,
      (List.foldl (dplur.DPLURstep blk phys inp aInv x) (0, x) l).2) = _
  rw [List.foldl_ext (dplur.DPLURstep blk phys inp aInv x)
      (fun (acc : varArray n × blkMultiArray3d n) c =>
        (acc.1 + dplurErrTerm blk phys inp aInv x c,
          acc.2.InsertBlock c.1 c.2.1 c.2.2 (dplurVal blk phys inp aInv x c)))
      ((0 : varArray n), x)
      (fun acc c _ => DPLURstep_eq blk phys inp aInv x acc c),
    foldl_pair_insertg]

/-! ### Component sums and structure extensionality -/

theorem vSum_add {n : ℕ} (v w : varArray n) : vSum (v + w) = vSum v + vSum w := by
  unfold vSum
  simp [Finset.sum_add_distrib]

theorem vSum_zero {n : ℕ} : vSum (0 : varArray n) = 0 := by
  simp [vSum]

theorem blkMultiArray3d.ext_of_get {n : ℕ} {x y : blkMultiArray3d n}
    (h1 : x.NumI = y.NumI) (h2 : x.NumJ = y.NumJ) (h3 : x.NumK = y.NumK)
    (h4 : x.NumGhosts = y.NumGhosts)
    (h5 : ∀ i j k, x.Get i j k = y.Get i j k) : x = y := by
  obtain ⟨ni, nj, nk, ng, d⟩ := x
  obtain ⟨mi, mj, mk, mg, e⟩ := y
  simp only at h1 h2 h3 h4
  subst h1; subst h2; subst h3; subst h4
  have hd : d = e := by
    funext i j k
    exact h5 i j k
  rw [hd]

/-! ### Per-step frame facts: each sweep body writes only its own cell -/

theorem forwardStep_get_ne {P : Type} {n : ℕ} (blk : procBlock P n) (phys : P)
    (inp : input) (aInv : matMultiArray3d n) (sweep : ℤ) (x : blkMultiArray3d n)
    (c : Cell) (i j k : ℤ) (h : ¬(i = c.1 ∧ j = c.2.1 ∧ k = c.2.2)) :
    (lusgs.forwardStep blk phys inp aInv sweep x c).Get i j k = x.Get i j k :=
  blkMultiArray3d.Get_InsertBlock_ne _ _ _ _ _ _ _ _ h

theorem backwardStep_get_ne {P : Type} {n : ℕ} (blk : procBlock P n) (phys : P)
    (inp : input) (aInv : matMultiArray3d n) (sweep : ℤ)
    (acc : varArray n × blkMultiArray3d n) (c : Cell) (i j k : ℤ)
    (h : ¬(i = c.1 ∧ j = c.2.1 ∧ k = c.2.2)) :
    ((lusgs.backwardStep blk phys inp aInv sweep acc c).2).Get i j k =
      acc.2.Get i j k := by
  show (if 0 < sweep ∨ inp.MatrixRequiresInitialization then _ else _ :
    blkMultiArray3d n).Get i j k = acc.2.Get i j k
  split
  · exact blkMultiArray3d.Get_InsertBlock_ne _ _ _ _ _ _ _ _ h
  · exact blkMultiArray3d.Get_InsertBlock_ne _ _ _ _ _ _ _ _ h

theorem DPLURstep_get_ne {P : Type} {n : ℕ} (blk : procBlock P n) (phys : P)
    (inp : input) (aInv : matMultiArray3d n) (xold : blkMultiArray3d n)
    (acc : varArray n × blkMultiArray3d n) (c : Cell) (i j k : ℤ)
    (h : ¬(i = c.1 ∧ j = c.2.1 ∧ k = c.2.2)) :
    ((dplur.DPLURstep blk phys inp aInv xold acc c).2).Get i j k =
      acc.2.Get i j k :=
  blkMultiArray3d.Get_InsertBlock_ne _ _ _ _ _ _ _ _ h

/-! ### The forward and backward sweeps against the spec's wording -/

theorem forwardStep_eq_spec {P : Type} {n : ℕ} (blk : procBlock P n) (phys : P)
    (inp : input) (aInv : matMultiArray3d n) (sweep : ℤ) (x : blkMultiArray3d n)
    (c : Cell) :
    lusgs.forwardStep blk phys inp aInv sweep x c =
      specForwardStep blk phys inp aInv sweep x c := by
  unfold lusgs.forwardStep specForwardStep
  by_cases hc : 0 < sweep ∨ inp.MatrixRequiresInitialization
  · simp only [if_pos hc]
  · simp only [if_neg hc, sub_zero]

theorem backward_loop_spec {P : Type} {n : ℕ} (blk : procBlock P n) (phys : P)
    (inp : input) (aInv : matMultiArray3d n) (sweep : ℤ) :
    ∀ (l : List Cell) (ev : varArray n) (es : ℚ) (y : blkMultiArray3d n),
      es = vSum ev →
      l.foldl (specBackwardStep blk phys inp aInv sweep) (es, y) =
        (vSum ((l.foldl (lusgs.backwardStep blk phys inp aInv sweep) (ev, y)).1),
          (l.foldl (lusgs.backwardStep blk phys inp aInv sweep) (ev, y)).2) := by
  intro l
  induction l with
  | nil =>
    intro ev es y hes
    exact Prod.ext hes rfl
  | cons c t ih =>
    intro ev es y hes
    simp only [List.foldl_cons]
    have hstep : specBackwardStep blk phys inp aInv sweep (es, y) c =
        (vSum ((lusgs.backwardStep blk phys inp aInv sweep (ev, y) c).1),
          (lusgs.backwardStep blk phys inp aInv sweep (ev, y) c).2) := by
      refine Prod.ext ?_ rfl
      show es + vSum _ = vSum (ev + _)
      rw [vSum_add, hes]
      rfl
    rw [hstep]
    exact ih _ _ _ rfl

/-! ### The relaxation drivers -/

theorem dplur_RelaxLoop_iterate {P C : Type} {n : ℕ} (swap : SwapFn C n)
    (level : gridLevel P C n) (phys : P) (inp : input) (rank : ℤ) (numG : ℕ) :
    ∀ (fuel : ℕ) (err : ℚ) (du : List (blkMultiArray3d n)),
      dplur.RelaxLoop swap level phys inp rank numG fuel err du =
        (err, (fun d => dplur.sweepOnce swap level phys inp rank numG d)^[fuel] du) := by
  intro fuel
  induction fuel with
  | zero => intro err du; rfl
  | succ m ih =>
    intro err du
    rw [dplur.RelaxLoop, ih, Function.iterate_succ_apply]

theorem lusgs_sweepOnce_swap_congr {P C : Type} {n : ℕ} (swap swap2 : SwapFn C n)
    (level : gridLevel P C n) (phys : P) (inp : input) (rank : ℤ) (numG : ℕ)
    (hsw : ∀ d, swap d level.connections rank numG = swap2 d level.connections rank numG)
    (sweep : ℤ) (du : List (blkMultiArray3d n)) :
    lusgs.sweepOnce swap level phys inp rank numG sweep du =
      lusgs.sweepOnce swap2 level phys inp rank numG sweep du := by
  show lusgs.backwardSweepBlocks phys inp sweep level.blocks level.diagonals
      (swap
        (lusgs.forwardSweepBlocks phys inp sweep level.blocks level.diagonals
          (swap du level.connections rank numG))
        level.connections rank numG) = _
  rw [hsw, hsw]
  rfl

theorem dplur_sweepOnce_swap_congr {P C : Type} {n : ℕ} (swap swap2 : SwapFn C n)
    (level : gridLevel P C n) (phys : P) (inp : input) (rank : ℤ) (numG : ℕ)
    (hsw : ∀ d, swap d level.connections rank numG = swap2 d level.connections rank numG)
    (du : List (blkMultiArray3d n)) :
    dplur.sweepOnce swap level phys inp rank numG du =
      dplur.sweepOnce swap2 level phys inp rank numG du := by
  show zipWith3 _ level.blocks level.diagonals (swap du level.connections rank numG) = _
  rw [hsw]
  rfl

theorem lusgs_RelaxLoop_swap_congr {P C : Type} {n : ℕ} (swap swap2 : SwapFn C n)
    (level : gridLevel P C n) (phys : P) (inp : input) (rank : ℤ) (numG : ℕ)
    (hsw : ∀ d, swap d level.connections rank numG = swap2 d level.connections rank numG) :
    ∀ (fuel : ℕ) (sweep : ℤ) (err : ℚ) (du : List (blkMultiArray3d n)),
      lusgs.RelaxLoop swap level phys inp rank numG fuel sweep err du =
        lusgs.RelaxLoop swap2 level phys inp rank numG fuel sweep err du := by
  intro fuel
  induction fuel with
  | zero => intro sweep err du; rfl
  | succ m ih =>
    intro sweep err du
    rw [lusgs.RelaxLoop, lusgs.RelaxLoop,
      lusgs_sweepOnce_swap_congr swap swap2 level phys inp rank numG hsw sweep du]
    exact ih _ _ _

theorem dplur_RelaxLoop_swap_congr {P C : Type} {n : ℕ} (swap swap2 : SwapFn C n)
    (level : gridLevel P C n) (phys : P) (inp : input) (rank : ℤ) (numG : ℕ)
    (hsw : ∀ d, swap d level.connections rank numG = swap2 d level.connections rank numG) :
    ∀ (fuel : ℕ) (err : ℚ) (du : List (blkMultiArray3d n)),
      dplur.RelaxLoop swap level phys inp rank numG fuel err du =
        dplur.RelaxLoop swap2 level phys inp rank numG fuel err du := by
  intro fuel
  induction fuel with
  | zero => intro err du; rfl
  | succ m ih =>
    intro err du
    rw [dplur.RelaxLoop, dplur.RelaxLoop,
      dplur_sweepOnce_swap_congr swap swap2 level phys inp rank numG hsw du]
    exact ih _ _

/-! ### Evaluating the diagonal inverter and the initializer -/

theorem InvertDiagonal_get_interior {P D : Type} {n : ℕ} (ops : diagOps D)
    (blk : procBlock P n) (inp : input) (mainDiagonal : ℤ → ℤ → ℤ → D)
    (i j k : ℤ) (hint : isInterior blk i j k) :
    InvertDiagonal ops blk inp mainDiagonal i j k =
      ops.Inverse
        (ops.AddOnDiagonal
          (ops.MultiplyOnDiagonal (mainDiagonal i j k) inp.MatrixRelaxation)
          (if 0 < inp.DualTimeCFL then
            blk.SolDeltaNCoeff i j k inp +
              vMax (blk.SpectralRadius i j k) / inp.DualTimeCFL
          else blk.SolDeltaNCoeff i j k inp)) := by
  have h := foldl_updf_get
    (fun (c : Cell) (d : D) =>
      ops.Inverse
        (ops.AddOnDiagonal (ops.MultiplyOnDiagonal d inp.MatrixRelaxation)
          (if 0 < inp.DualTimeCFL then
            blk.SolDeltaNCoeff c.1 c.2.1 c.2.2 inp +
              vMax (blk.SpectralRadius c.1 c.2.1 c.2.2) / inp.DualTimeCFL
          else blk.SolDeltaNCoeff c.1 c.2.1 c.2.2 inp)))
    (cellList blk) (nodup_cellList blk) mainDiagonal i j k
  rw [if_pos ((mem_cellList blk (i, j, k)).mpr hint)] at h
  exact h

theorem InvertDiagonal_frame {P D : Type} {n : ℕ} (ops : diagOps D)
    (blk : procBlock P n) (inp : input) (mainDiagonal : ℤ → ℤ → ℤ → D)
    (i j k : ℤ) (hg : ¬ isInterior blk i j k) :
    InvertDiagonal ops blk inp mainDiagonal i j k = mainDiagonal i j k := by
  have h := foldl_updf_get
    (fun (c : Cell) (d : D) =>
      ops.Inverse
        (ops.AddOnDiagonal (ops.MultiplyOnDiagonal d inp.MatrixRelaxation)
          (if 0 < inp.DualTimeCFL then
            blk.SolDeltaNCoeff c.1 c.2.1 c.2.2 inp +
              vMax (blk.SpectralRadius c.1 c.2.1 c.2.2) / inp.DualTimeCFL
          else blk.SolDeltaNCoeff c.1 c.2.1 c.2.2 inp)))
    (cellList blk) (nodup_cellList blk) mainDiagonal i j k
  rw [if_neg (fun hmem => hg ((mem_cellList blk (i, j, k)).mp hmem))] at h
  exact h

theorem InitializeMatrixUpdate_get_init {P : Type} {n : ℕ} (blk : procBlock P n)
    (inp : input) (phys : P) (aInv : matMultiArray3d n)
    (hm : inp.MatrixRequiresInitialization = true) (i j k : ℤ) :
    (InitializeMatrixUpdate blk inp phys aInv).Get i j k =
      if (i, j, k) ∈ cellList blk then
        aInv.ArrayMult i j k
          ((-(1 / inp.Theta)) • blk.Residual i j k + blk.SolDeltaNm1 i j k inp -
            blk.SolDeltaMmN i j k inp phys)
      else 0 := by
  have h := foldl_insertg_get
    (fun c : Cell =>
      aInv.ArrayMult c.1 c.2.1 c.2.2
        ((-(1 / inp.Theta)) • blk.Residual c.1 c.2.1 c.2.2 +
          blk.SolDeltaNm1 c.1 c.2.1 c.2.2 inp -
          blk.SolDeltaMmN c.1 c.2.1 c.2.2 inp phys))
    (cellList blk)
    ⟨blk.NumI, blk.NumJ, blk.NumK, blk.NumGhosts, fun _ _ _ => 0⟩ i j k
  have hd : InitializeMatrixUpdate blk inp phys aInv =
      (cellList blk).foldl
        (fun x c =>
          x.InsertBlock c.1 c.2.1 c.2.2
            (aInv.ArrayMult c.1 c.2.1 c.2.2
              ((-(1 / inp.Theta)) • blk.Residual c.1 c.2.1 c.2.2 +
                blk.SolDeltaNm1 c.1 c.2.1 c.2.2 inp -
                blk.SolDeltaMmN c.1 c.2.1 c.2.2 inp phys)))
        ⟨blk.NumI, blk.NumJ, blk.NumK, blk.NumGhosts, fun _ _ _ => 0⟩ := by
    unfold InitializeMatrixUpdate
    rw [if_pos hm]
  rw [hd, h]
  rfl

theorem InitializeMatrixUpdate_get_noinit {P : Type} {n : ℕ} (blk : procBlock P n)
    (inp : input) (phys : P) (aInv : matMultiArray3d n)
    (hm : inp.MatrixRequiresInitialization = false) (i j k : ℤ) :
    (InitializeMatrixUpdate blk inp phys aInv).Get i j k = 0 := by
  unfold InitializeMatrixUpdate
  rw [if_neg (by rw [hm]; exact Bool.false_ne_true)]
  rfl

theorem InitializeMatrixUpdate_dims {P : Type} {n : ℕ} (blk : procBlock P n)
    (inp : input) (phys : P) (aInv : matMultiArray3d n) :
    (InitializeMatrixUpdate blk inp phys aInv).NumI = blk.NumI ∧
      (InitializeMatrixUpdate blk inp phys aInv).NumJ = blk.NumJ ∧
      (InitializeMatrixUpdate blk inp phys aInv).NumK = blk.NumK ∧
      (InitializeMatrixUpdate blk inp phys aInv).NumGhosts = blk.NumGhosts := by
  unfold InitializeMatrixUpdate
  by_cases hm : inp.MatrixRequiresInitialization
  · rw [if_pos hm]
    exact foldl_insert_dims
      (fun x c =>
        x.InsertBlock c.1 c.2.1 c.2.2
          (aInv.ArrayMult c.1 c.2.1 c.2.2
            ((-(1 / inp.Theta)) • blk.Residual c.1 c.2.1 c.2.2 +
              blk.SolDeltaNm1 c.1 c.2.1 c.2.2 inp -
              blk.SolDeltaMmN c.1 c.2.1 c.2.2 inp phys)))
      (fun x c => ⟨rfl, rfl, rfl, rfl⟩) (cellList blk)
      ⟨blk.NumI, blk.NumJ, blk.NumK, blk.NumGhosts, fun _ _ _ => 0⟩
  · rw [if_neg hm]
    exact ⟨rfl, rfl, rfl, rfl⟩

/-! ### The claims -/

/-- Claim C1: for every grid level (with at least one block, which the
unconditional `level.Block(0)` read requires), physics model, input, rank,
sweep count and update field du, `dplur::Relax` returns exactly 0: the L2
error computed by each per-block DPLUR sweep is discarded and never
accumulated into the returned matrixError, even though the sweeps still
mutate du in place (the returned state is the sweep iteration of the entry
state). -/
theorem claim_dplur_relax_returns_zero {P C : Type} {n : ℕ} (swap : SwapFn C n)
    (level : gridLevel P C n) (phys : P) (inp : input) (rank sweeps : ℤ)
    (du : List (blkMultiArray3d n)) (b0 : procBlock P n)
    (rest : List (procBlock P n)) (hb : level.blocks = b0 :: rest) :
    dplur.Relax swap level phys inp rank sweeps du =
      some (0,
        (fun d => dplur.sweepOnce swap level phys inp rank b0.NumGhosts d)^[sweeps.toNat]
          du) := by
  unfold dplur.Relax
  rw [hb]
  exact congrArg some
    (dplur_RelaxLoop_iterate swap level phys inp rank b0.NumGhosts sweeps.toNat 0 du)

theorem claim_dplur_relax_returns_zero_witness :
    sampleLevel.blocks = sampleBlock :: [] ∧
    dplur.Relax sampleSwap sampleLevel () sampleInput 0 2 [sampleX] =
      some (0,
        (fun d =>
          dplur.sweepOnce sampleSwap sampleLevel () sampleInput 0
            sampleBlock.NumGhosts d)^[(2 : ℤ).toNat] [sampleX]) :=
  ⟨rfl,
    claim_dplur_relax_returns_zero sampleSwap sampleLevel () sampleInput 0 2
      [sampleX] sampleBlock [] rfl⟩

/-- Claim C2: `LUSGS_Backward` visits the reorder table in exactly reversed
order; at each cell, if sweep > 0 or MatrixRequiresInitialization it sets
Δu(c) to A⁻¹(c)·(b + L − U) with b = −θ⁻¹·R(c) + δN₋₁(c) − δM₋N(c), otherwise
to the old value minus A⁻¹(c)·U; it accumulates the componentwise squared
change of Δu(c) at every cell and returns the total as the summed L2 error —
i.e. it coincides with the spec's backward sweep `specBackwardSweep`. -/
theorem claim_lusgs_backward_matches_spec {P : Type} {n : ℕ} (blk : procBlock P n)
    (reorder : List Cell) (phys : P) (inp : input) (aInv : matMultiArray3d n)
    (sweep : ℤ) (x : blkMultiArray3d n) :
    lusgs.LUSGS_Backward blk reorder phys inp aInv sweep x =
      specBackwardSweep blk reorder phys inp aInv sweep x := by
  unfold lusgs.LUSGS_Backward specBackwardSweep
  rw [backward_loop_spec blk phys inp aInv sweep reorder.reverse 0 0 x vSum_zero.symm]

/-- Claim C3: `LUSGS_Forward` visits cells in reorder-table order and sets
Δu(c) to A⁻¹(c)·(b + off) with b = −θ⁻¹·R(c) + δN₋₁(c) − δM₋N(c), where off
always includes the added `ImplicitLower` action and subtracts `ImplicitUpper`
exactly when the sweep index is positive or MatrixRequiresInitialization holds
(skipped on the zeroth sweep of an uninitialized Δu) — i.e. it coincides with
the spec's forward sweep `specForwardSweep`. -/
theorem claim_lusgs_forward_matches_spec {P : Type} {n : ℕ} (blk : procBlock P n)
    (reorder : List Cell) (phys : P) (inp : input) (aInv : matMultiArray3d n)
    (sweep : ℤ) (x : blkMultiArray3d n) :
    lusgs.LUSGS_Forward blk reorder phys inp aInv sweep x =
      specForwardSweep blk reorder phys inp aInv sweep x :=
  List.foldl_ext _ _ x (fun y c _ => forwardStep_eq_spec blk phys inp aInv sweep y c)

/-- Claim C4: `InitializeMatrixUpdate` returns an array whose extent matches
the block including ghost layers; if MatrixRequiresInitialization is false
every entry (interior and ghost) is zero, and otherwise every interior cell c
holds A⁻¹(c)·(−θ⁻¹·R(c) + δN₋₁(c) − δM₋N(c, phys)) while ghost entries remain
zero. -/
theorem claim_initialize_matrix_update {P : Type} {n : ℕ} (blk : procBlock P n)
    (inp : input) (phys : P) (aInv : matMultiArray3d n) :
    ((InitializeMatrixUpdate blk inp phys aInv).NumI = blk.NumI ∧
      (InitializeMatrixUpdate blk inp phys aInv).NumJ = blk.NumJ ∧
      (InitializeMatrixUpdate blk inp phys aInv).NumK = blk.NumK ∧
      (InitializeMatrixUpdate blk inp phys aInv).NumGhosts = blk.NumGhosts) ∧
    (inp.MatrixRequiresInitialization = false →
      ∀ i j k : ℤ, (InitializeMatrixUpdate blk inp phys aInv).Get i j k = 0) ∧
    (inp.MatrixRequiresInitialization = true →
      (∀ i j k : ℤ, isInterior blk i j k →
        (InitializeMatrixUpdate blk inp phys aInv).Get i j k =
          aInv.ArrayMult i j k
            ((-(1 / inp.Theta)) • blk.Residual i j k + blk.SolDeltaNm1 i j k inp -
              blk.SolDeltaMmN i j k inp phys)) ∧
      (∀ i j k : ℤ, ¬ isInterior blk i j k →
        (InitializeMatrixUpdate blk inp phys aInv).Get i j k = 0)) := by
  refine ⟨InitializeMatrixUpdate_dims blk inp phys aInv, ?_, ?_⟩
  · intro hm i j k
    exact InitializeMatrixUpdate_get_noinit blk inp phys aInv hm i j k
  · intro hm
    constructor
    · intro i j k hint
      rw [InitializeMatrixUpdate_get_init blk inp phys aInv hm i j k,
        if_pos ((mem_cellList blk (i, j, k)).mpr hint)]
    · intro i j k hg
      rw [InitializeMatrixUpdate_get_init blk inp phys aInv hm i j k,
        if_neg (fun hmem => hg ((mem_cellList blk (i, j, k)).mp hmem))]

theorem claim_initialize_matrix_update_witness :
    sampleInput.MatrixRequiresInitialization = true ∧
    isInterior sampleBlock 0 0 0 ∧
    ¬ isInterior sampleBlock (-1) 0 0 ∧
    (InitializeMatrixUpdate sampleBlock sampleInput () sampleAInv).Get 0 0 0 =
      sampleAInv.ArrayMult 0 0 0
        ((-(1 / sampleInput.Theta)) • sampleBlock.Residual 0 0 0 +
          sampleBlock.SolDeltaNm1 0 0 0 sampleInput -
          sampleBlock.SolDeltaMmN 0 0 0 sampleInput ()) ∧
    (InitializeMatrixUpdate sampleBlock sampleInput () sampleAInv).Get (-1) 0 0 = 0 :=
  ⟨rfl, by decide, by decide,
    ((claim_initialize_matrix_update sampleBlock sampleInput () sampleAInv).2.2
        rfl).1 0 0 0 (by decide),
    ((claim_initialize_matrix_update sampleBlock sampleInput () sampleAInv).2.2
        rfl).2 (-1) 0 0 (by decide)⟩

/-- Claim C5: for each interior cell, `InvertDiagonal` first scales the
diagonal block by the matrix-relaxation factor ω, then adds c₀·I where
c₀ = SolDeltaNCoeff plus, only when DualTimeCFL > 0, the maximum
spectral-radius component divided by DualTimeCFL, and finally replaces the
block by its inverse; consequently a DualTimeCFL = 0 input and a
DualTimeCFL > 0 input produce identical diagonals whenever the spectral
radius is zero (and the other consumed quantities agree). -/
theorem claim_invert_diagonal :
    (∀ (P D : Type) (n : ℕ) (ops : diagOps D) (blk : procBlock P n)
      (inp : input) (mainDiagonal : ℤ → ℤ → ℤ → D) (i j k : ℤ),
      isInterior blk i j k →
      InvertDiagonal ops blk inp mainDiagonal i j k =
        ops.Inverse
          (ops.AddOnDiagonal
            (ops.MultiplyOnDiagonal (mainDiagonal i j k) inp.MatrixRelaxation)
            (blk.SolDeltaNCoeff i j k inp +
              (if 0 < inp.DualTimeCFL then
                vMax (blk.SpectralRadius i j k) / inp.DualTimeCFL
              else 0)))) ∧
    (∀ (P D : Type) (n : ℕ) (ops : diagOps D) (blk : procBlock P n)
      (inp inp2 : input) (mainDiagonal : ℤ → ℤ → ℤ → D) (i j k : ℤ),
      isInterior blk i j k →
      inp.DualTimeCFL = 0 → 0 < inp2.DualTimeCFL →
      inp2.MatrixRelaxation = inp.MatrixRelaxation →
      blk.SolDeltaNCoeff i j k inp2 = blk.SolDeltaNCoeff i j k inp →
      blk.SpectralRadius i j k = 0 →
      InvertDiagonal ops blk inp2 mainDiagonal i j k =
        InvertDiagonal ops blk inp mainDiagonal i j k) := by
  constructor
  · intro P D n ops blk inp m i j k hint
    rw [InvertDiagonal_get_interior ops blk inp m i j k hint]
    by_cases hd : 0 < inp.DualTimeCFL
    · rw [if_pos hd, if_pos hd]
    · rw [if_neg hd, if_neg hd, add_zero]
  · intro P D n ops blk inp inp2 m i j k hint h0 h2 hw hc hs
    rw [InvertDiagonal_get_interior ops blk inp m i j k hint,
      InvertDiagonal_get_interior ops blk inp2 m i j k hint]
    rw [if_pos h2, if_neg (by rw [h0]; exact lt_irrefl 0), hw, hc, hs, vMax_zero,
      zero_div, add_zero]

theorem claim_invert_diagonal_witness :
    isInterior sampleBlock 0 0 0 ∧
    sampleInput.DualTimeCFL = 0 ∧ 0 < sampleInputCFL.DualTimeCFL ∧
    InvertDiagonal sampleOps sampleBlock sampleInput sampleDiag 0 0 0 =
      sampleOps.Inverse
        (sampleOps.AddOnDiagonal
          (sampleOps.MultiplyOnDiagonal (sampleDiag 0 0 0)
            sampleInput.MatrixRelaxation)
          (sampleBlock.SolDeltaNCoeff 0 0 0 sampleInput +
            (if 0 < sampleInput.DualTimeCFL then
              vMax (sampleBlock.SpectralRadius 0 0 0) / sampleInput.DualTimeCFL
            else 0))) ∧
    InvertDiagonal sampleOps sampleBlock sampleInputCFL sampleDiag 0 0 0 =
      InvertDiagonal sampleOps sampleBlock sampleInput sampleDiag 0 0 0 :=
  ⟨by decide, rfl, by decide,
    claim_invert_diagonal.1 Unit ℚ 1 sampleOps sampleBlock sampleInput sampleDiag
      0 0 0 (by decide),
    claim_invert_diagonal.2 Unit ℚ 1 sampleOps sampleBlock sampleInput
      sampleInputCFL sampleDiag 0 0 0 (by decide) rfl (by decide) rfl rfl rfl⟩

/-- Claim C6: for every block extent, the reorder table built at `lusgs`
construction is a valid permutation of all NI·NJ·NK interior indices (a
permutation of the natural interior cell list, with no duplicates), and the
sums s = i + j + k are non-decreasing along the sequence; the order is the
deterministic output of `HyperplaneReorder`. -/
theorem claim_hyperplane_reorder_valid (ni nj nk : ℕ) :
    (HyperplaneReorder ni nj nk).Perm (natCells ni nj nk) ∧
    (HyperplaneReorder ni nj nk).Nodup ∧
    List.Pairwise (fun c d : Cell => c.1 + c.2.1 + c.2.2 ≤ d.1 + d.2.1 + d.2.2)
      (HyperplaneReorder ni nj nk) :=
  ⟨hyperplaneReorder_perm ni nj nk, nodup_HyperplaneReorder ni nj nk,
    hyperplaneReorder_sorted ni nj nk⟩

/-- Claim C7: a DPLUR sweep reads all neighbor Δu values from the frozen copy
xold taken at sweep entry, so the resulting Δu field and the sweep's L2 error
are functions of Δu at sweep entry only and are unchanged under any
permutation of the interior-cell iteration order. -/
theorem claim_dplur_order_independent {P : Type} {n : ℕ} (blk : procBlock P n)
    (phys : P) (inp : input) (aInv : matMultiArray3d n) (x : blkMultiArray3d n)
    (l : List Cell) (hperm : l.Perm (cellList blk)) :
    dplur.DPLUR_order l blk phys inp aInv x = dplur.DPLUR blk phys inp aInv x := by
  rw [dplur.DPLUR, DPLUR_order_eq, DPLUR_order_eq]
  refine Prod.ext ?_ ?_
  · show vSum _ = vSum _
    rw [(hperm.map (dplurErrTerm blk phys inp aInv x)).sum_eq]
  · have hdl := foldl_insert_dims
      (fun y c => y.InsertBlock c.1 c.2.1 c.2.2 (dplurVal blk phys inp aInv x c))
      (fun y c => ⟨rfl, rfl, rfl, rfl⟩) l x
    have hdc := foldl_insert_dims
      (fun y c => y.InsertBlock c.1 c.2.1 c.2.2 (dplurVal blk phys inp aInv x c))
      (fun y c => ⟨rfl, rfl, rfl, rfl⟩) (cellList blk) x
    refine blkMultiArray3d.ext_of_get (hdl.1.trans hdc.1.symm)
      (hdl.2.1.trans hdc.2.1.symm) (hdl.2.2.1.trans hdc.2.2.1.symm)
      (hdl.2.2.2.trans hdc.2.2.2.symm) ?_
    intro i j k
    rw [foldl_insertg_get (dplurVal blk phys inp aInv x),
      foldl_insertg_get (dplurVal blk phys inp aInv x)]
    exact if_congr hperm.mem_iff rfl rfl

theorem claim_dplur_order_independent_witness :
    List.Perm [((1 : ℤ), (0 : ℤ), (0 : ℤ)), ((0 : ℤ), (0 : ℤ), (0 : ℤ))]
      (cellList sampleBlock2) ∧
    dplur.DPLUR_order [((1 : ℤ), (0 : ℤ), (0 : ℤ)), ((0 : ℤ), (0 : ℤ), (0 : ℤ))]
        sampleBlock2 () sampleInput sampleAInv sampleX =
      dplur.DPLUR sampleBlock2 () sampleInput sampleAInv sampleX :=
  ⟨by decide,
    claim_dplur_order_independent sampleBlock2 () sampleInput sampleAInv sampleX
      [((1 : ℤ), (0 : ℤ), (0 : ℤ)), ((0 : ℤ), (0 : ℤ), (0 : ℤ))] (by decide)⟩

/-- Claim C8: for both solver variants, calling Relax with sweeps ≤ 0 on a
level with at least one block is a no-op: it returns 0 and leaves every
block's Δu unchanged, performing no sweep and no ghost exchange (the result
does not depend on the exchange function at all). -/
theorem claim_relax_nonpositive_sweeps_noop {P C : Type} {n : ℕ}
    (swap : SwapFn C n) (level : gridLevel P C n) (phys : P) (inp : input)
    (rank sweeps : ℤ) (du : List (blkMultiArray3d n))
    (hne : level.blocks ≠ []) (hs : sweeps ≤ 0) :
    lusgs.Relax swap level phys inp rank sweeps du = some (0, du) ∧
    dplur.Relax swap level phys inp rank sweeps du = some (0, du) := by
  obtain ⟨b0, rest, hb⟩ : ∃ b0 rest, level.blocks = b0 :: rest := by
    cases hlb : level.blocks with
    | nil => exact absurd hlb hne
    | cons a t => exact ⟨a, t, rfl⟩
  have ht : sweeps.toNat = 0 := Int.toNat_of_nonpos hs
  constructor
  · unfold lusgs.Relax
    rw [hb]
    show some (lusgs.RelaxLoop swap level phys inp rank b0.NumGhosts
      sweeps.toNat 0 0 du) = some (0, du)
    rw [ht]
    rfl
  · unfold dplur.Relax
    rw [hb]
    show some (dplur.RelaxLoop swap level phys inp rank b0.NumGhosts
      sweeps.toNat 0 du) = some (0, du)
    rw [ht]
    rfl

theorem claim_relax_nonpositive_sweeps_noop_witness :
    sampleLevel.blocks ≠ [] ∧ ((0 : ℤ) ≤ 0) ∧
    lusgs.Relax sampleSwap sampleLevel () sampleInput 0 0 [sampleX] =
      some (0, [sampleX]) ∧
    dplur.Relax sampleSwap sampleLevel () sampleInput 0 0 [sampleX] =
      some (0, [sampleX]) := by
  have h := claim_relax_nonpositive_sweeps_noop sampleSwap sampleLevel ()
    sampleInput 0 0 [sampleX] (List.cons_ne_nil _ _) (by decide)
  exact ⟨List.cons_ne_nil _ _, by decide, h.1, h.2⟩

/-- Claim C9: both `lusgs::Relax` and `dplur::Relax` unconditionally evaluate
`level.Block(0).NumGhosts()` before entering the sweep loop — even when
sweeps ≤ 0 — so every call requires the grid level to contain at least one
block (on an empty level the embedded call has no defined value), and block
0's ghost count is the only ghost count the exchange is ever invoked with:
two exchange functions that agree at block 0's ghost count yield identical
results. -/
theorem claim_relax_requires_block_and_uses_block0_ghosts :
    (∀ (P C : Type) (n : ℕ) (swap : SwapFn C n) (level : gridLevel P C n)
      (phys : P) (inp : input) (rank sweeps : ℤ)
      (du : List (blkMultiArray3d n)),
      level.blocks = [] →
      lusgs.Relax swap level phys inp rank sweeps du = none ∧
      dplur.Relax swap level phys inp rank sweeps du = none) ∧
    (∀ (P C : Type) (n : ℕ) (swap swap2 : SwapFn C n) (level : gridLevel P C n)
      (phys : P) (inp : input) (rank sweeps : ℤ)
      (du : List (blkMultiArray3d n)) (b0 : procBlock P n)
      (rest : List (procBlock P n)),
      level.blocks = b0 :: rest →
      (∀ d, swap d level.connections rank b0.NumGhosts =
        swap2 d level.connections rank b0.NumGhosts) →
      lusgs.Relax swap level phys inp rank sweeps du =
        lusgs.Relax swap2 level phys inp rank sweeps du ∧
      dplur.Relax swap level phys inp rank sweeps du =
        dplur.Relax swap2 level phys inp rank sweeps du) := by
  constructor
  · intro P C n swap level phys inp rank sweeps du hb
    constructor
    · unfold lusgs.Relax
      rw [hb]
    · unfold dplur.Relax
      rw [hb]
  · intro P C n swap swap2 level phys inp rank sweeps du b0 rest hb hsw
    constructor
    · unfold lusgs.Relax
      rw [hb]
      exact congrArg some
        (lusgs_RelaxLoop_swap_congr swap swap2 level phys inp rank b0.NumGhosts
          hsw sweeps.toNat 0 0 du)
    · unfold dplur.Relax
      rw [hb]
      exact congrArg some
        (dplur_RelaxLoop_swap_congr swap swap2 level phys inp rank b0.NumGhosts
          hsw sweeps.toNat 0 du)

theorem claim_relax_requires_block_and_uses_block0_ghosts_witness :
    emptyLevel.blocks = [] ∧
    lusgs.Relax sampleSwap emptyLevel () sampleInput 0 0 [] = none ∧
    dplur.Relax sampleSwap emptyLevel () sampleInput 0 0 [] = none ∧
    lusgs.Relax sampleSwap sampleLevel () sampleInput 0 1 [sampleX] =
      lusgs.Relax sampleSwap sampleLevel () sampleInput 0 1 [sampleX] := by
  have ha := claim_relax_requires_block_and_uses_block0_ghosts.1 Unit Unit 1
    sampleSwap emptyLevel () sampleInput 0 0 [] rfl
  have hb := claim_relax_requires_block_and_uses_block0_ghosts.2 Unit Unit 1
    sampleSwap sampleSwap sampleLevel () sampleInput 0 1 [sampleX] sampleBlock []
    rfl (fun d => rfl)
  exact ⟨rfl, ha.1, ha.2, hb.1⟩

/-- Claim C10: every sweep routine writes Δu only at interior cell indices
(the LU-SGS sweeps write only at reorder-table entries, which are interior;
DPLUR writes only in the Start..End ranges): the ghost-layer entries of Δu
are identical before and after any single forward, backward or DPLUR sweep. -/
theorem claim_sweeps_preserve_ghost_layer {P : Type} {n : ℕ} (blk : procBlock P n)
    (phys : P) (inp : input) (aInv : matMultiArray3d n) (sweep : ℤ)
    (x : blkMultiArray3d n) (i j k : ℤ) (hg : ¬ isInterior blk i j k) :
    (lusgs.LUSGS_Forward blk (HyperplaneReorder blk.NumI blk.NumJ blk.NumK)
        phys inp aInv sweep x).Get i j k = x.Get i j k ∧
    ((lusgs.LUSGS_Backward blk (HyperplaneReorder blk.NumI blk.NumJ blk.NumK)
        phys inp aInv sweep x).2).Get i j k = x.Get i j k ∧
    ((dplur.DPLUR blk phys inp aInv x).2).Get i j k = x.Get i j k := by
  have hmemHR : ((i, j, k) : Cell) ∉ HyperplaneReorder blk.NumI blk.NumJ blk.NumK := by
    intro hmem
    exact hg ((mem_cellList blk (i, j, k)).mp
      (by rw [cellList_eq_natCells]; exact mem_HyperplaneReorder.mp hmem))
  have hmemCL : ((i, j, k) : Cell) ∉ cellList blk :=
    fun hmem => hg ((mem_cellList blk (i, j, k)).mp hmem)
  refine ⟨?_, ?_, ?_⟩
  · exact foldl_frame (lusgs.forwardStep blk phys inp aInv sweep) i j k
      (fun y c hc => forwardStep_get_ne blk phys inp aInv sweep y c i j k hc)
      (HyperplaneReorder blk.NumI blk.NumJ blk.NumK) hmemHR x
  · exact foldl_frame_pair (lusgs.backwardStep blk phys inp aInv sweep) i j k
      (fun acc c hc => backwardStep_get_ne blk phys inp aInv sweep acc c i j k hc)
      (HyperplaneReorder blk.NumI blk.NumJ blk.NumK).reverse
      (fun hmem => hmemHR (List.mem_reverse.mp hmem)) (0, x)
  · exact foldl_frame_pair (dplur.DPLURstep blk phys inp aInv x) i j k
      (fun acc c hc => DPLURstep_get_ne blk phys inp aInv x acc c i j k hc)
      (cellList blk) hmemCL (0, x)

theorem claim_sweeps_preserve_ghost_layer_witness :
    ¬ isInterior sampleBlock (-1) 0 0 ∧
    (lusgs.LUSGS_Forward sampleBlock
        (HyperplaneReorder sampleBlock.NumI sampleBlock.NumJ sampleBlock.NumK)
        () sampleInput sampleAInv 0 sampleX).Get (-1) 0 0 =
      sampleX.Get (-1) 0 0 ∧
    ((lusgs.LUSGS_Backward sampleBlock
        (HyperplaneReorder sampleBlock.NumI sampleBlock.NumJ sampleBlock.NumK)
        () sampleInput sampleAInv 0 sampleX).2).Get (-1) 0 0 =
      sampleX.Get (-1) 0 0 ∧
    ((dplur.DPLUR sampleBlock () sampleInput sampleAInv sampleX).2).Get (-1) 0 0 =
      sampleX.Get (-1) 0 0 := by
  have h := claim_sweeps_preserve_ghost_layer sampleBlock () sampleInput
    sampleAInv 0 sampleX (-1) 0 0 (by decide)
  exact ⟨by decide, h.1, h.2.1, h.2.2⟩

end Aither
